import Mathlib

/-!
Verification development for the defensive JSON-extraction-and-repair pipeline
of `scripts/generate_testrail_cases.py` (functions `fix_json_string` and
`parse_test_cases`).

The embedding works on `List Char` (the raw response text already unwrapped
from the provider envelope; a missing or empty envelope text is the empty
list).  Regular-expression operations of the source are embedded as
deterministic scanners: each regex used by the source
(the fenced-block pattern, the bare-brace pattern, the three repair
substitutions and the five field-salvage patterns) admits no backtracking
ambiguity, so leftmost search plus greedy/lazy quantifier semantics reduce
to the functional scanners below.  `json.loads` is embedded as a fueled
recursive-descent parser accepting exactly the JSON grammar the Python
decoder accepts (objects, arrays, strings with escapes, numbers,
`true`/`false`/`null` plus the `NaN`/`Infinity`/`-Infinity` constants);
numbers keep their raw token text.  Process termination via `sys.exit(1)`
(empty response text, and the catch-all handler that turns a `TypeError`
raised while testing field membership on a non-container record into an
exit) is modelled by the `PyResult.exit` constructor; printed warnings are
modelled by the `Diag` list.
-/

set_option maxRecDepth 20000
set_option linter.unusedVariables false

/-- The backtick character (written numerically). -/
def btick : Char := Char.ofNat 96

def pySpace (c : Char) : Bool :=
  c = ' ' || c = '\t' || c = '\n' || c = '\r' || c = '\x0b' || c = '\x0c'

def isWordChar (c : Char) : Bool :=
  ('a' ≤ c && c ≤ 'z') || ('A' ≤ c && c ≤ 'Z') || ('0' ≤ c && c ≤ '9') || c = '_'

def isDigitChar (c : Char) : Bool := '0' ≤ c && c ≤ '9'

/-- JSON values as produced by `json.loads`; numbers keep their raw token,
object members keep their textual order (lookups take the last occurrence,
as a Python dict built by sequential insertion does). -/
inductive JValue where
  | null
  | bool (b : Bool)
  | num (raw : List Char)
  | str (s : List Char)
  | arr (elems : List JValue)
  | obj (kvs : List (List Char × JValue))

mutual
def jbeq : JValue → JValue → Bool
  | .null, .null => true
  | .bool a, .bool b => a == b
  | .num a, .num b => a == b
  | .str a, .str b => a == b
  | .arr a, .arr b => jbeqList a b
  | .obj a, .obj b => jbeqKvs a b
  | _, _ => false
def jbeqList : List JValue → List JValue → Bool
  | [], [] => true
  | a :: as, b :: bs => jbeq a b && jbeqList as bs
  | _, _ => false
def jbeqKvs : List (List Char × JValue) → List (List Char × JValue) → Bool
  | [], [] => true
  | (k1, v1) :: as, (k2, v2) :: bs => k1 == k2 && jbeq v1 v2 && jbeqKvs as bs
  | _, _ => false
end

/-- Printed diagnostics of `parse_test_cases`, in program order. -/
inductive Diag where
  | foundJsonInCodeBlock
  | foundJsonWithoutCodeBlock
  | noJsonFound
  | initialParseError
  | fixedParse
  | fixedParseError
  | createdManually
  | manualExtractionFailed
  | invalidFormat
  | missingFields (fields : List (List Char))

/-- Outcome of the Python function: either `sys.exit code` or a returned
record list together with the warnings printed along the way. -/
inductive PyResult where
  | exit (code : Nat)
  | ok (recs : List JValue) (diags : List Diag)

def recordsOf : PyResult → Option (List JValue)
  | .exit _ => none
  | .ok recs _ => some recs

def withDiag (d : List Diag) : PyResult → PyResult
  | .exit c => .exit c
  | .ok recs ds => .ok recs (d ++ ds)

def tcKey : List Char := "test_cases".toList
def titleKey : List Char := "title".toList
def precondKey : List Char := "preconditions".toList
def stepsKey : List Char := "steps".toList
def expectedKey : List Char := "expected_results".toList
def prioKey : List Char := "priority".toList

def requiredFields : List (List Char) := [titleKey, precondKey, stepsKey, expectedKey, prioKey]

def lacksChar (x : Char) : List Char → Bool
  | [] => true
  | c :: r => if c = x then false else lacksChar x r

def hasCharB (x : Char) : List Char → Bool
  | [] => false
  | c :: r => if c = x then true else hasCharB x r

/-- Predicate: `hasBracePair l = true` iff some brace-open in `l` is followed
(strictly later) by some brace-close — exactly when the bare-brace regex can
locate a span. -/
def hasBracePair : List Char → Bool
  | [] => false
  | c :: r => (decide (c = '{') && hasCharB '}' r) || hasBracePair r

def stripPref : List Char → List Char → Option (List Char)
  | [], l => some l
  | _ :: _, [] => none
  | p :: ps, c :: cs => if c = p then stripPref ps cs else none

def isSubstr (pat : List Char) : List Char → Bool
  | [] => pat.isEmpty
  | l@(_ :: t) => pat.isPrefixOf l || isSubstr pat t

def fenceMarker : List Char := [btick, btick, btick]
def jsonTag : List Char := ['j', 's', 'o', 'n']

/-- After the `\s*` that follows a captured `}`, the closing fence must
appear: greedy whitespace followed by three backticks (deterministic, since
no whitespace character is a backtick). -/
def fenceCloseOk (rest : List Char) : Bool :=
  fenceMarker.isPrefixOf (rest.dropWhile pySpace)

/-- Lazy `.*?` scan (DOTALL) for `(\{.*?\})\s*` followed by three backticks:
stop at the first `}` whose remainder closes the fence. -/
def lazyScan (acc : List Char) : List Char → Option (List Char)
  | [] => none
  | c :: rest =>
    if decide (c = '}') && fenceCloseOk rest then some ('{' :: (acc.reverse ++ ['}']))
    else lazyScan (c :: acc) rest

/-- Match attempt, anchored at the start of `cs`, for the source pattern
three backticks, optional `json` tag, `\s*`, `(\{.*?\})`, `\s*`, three
backticks (each quantifier is deterministic here, see the module comment). -/
def fenceAt (cs : List Char) : Option (List Char) :=
  match stripPref fenceMarker cs with
  | none => none
  | some r1 =>
    let r2 := if jsonTag.isPrefixOf r1 then r1.drop 4 else r1
    match r2.dropWhile pySpace with
    | '{' :: r4 => lazyScan [] r4
    | _ => none

/-- Leftmost successful anchor of the fenced-block pattern (`re.search`). -/
def fenceSearch : List Char → Option (List Char)
  | [] => none
  | c :: rest =>
    match fenceAt (c :: rest) with
    | some cap => some cap
    | none => fenceSearch rest

/-- Suffix of the text starting just after the first `{`. -/
def dropToBrace : List Char → Option (List Char)
  | [] => none
  | c :: rest => if c = '{' then some rest else dropToBrace rest

/-- Keep everything up to and including the last `}`, if any. -/
def truncAtLastClose : List Char → Option (List Char)
  | [] => none
  | c :: rest =>
    match truncAtLastClose rest with
    | some t => some (c :: t)
    | none => if c = '}' then some [c] else none

/-- Bare-brace extraction `re.search(r'(\x7b.*\x7d)', text, re.DOTALL)`:
first open brace through last close brace. -/
def bareExtract (cs : List Char) : Option (List Char) :=
  match dropToBrace cs with
  | none => none
  | some rest =>
    match truncAtLastClose rest with
    | none => none
    | some t => some ('{' :: t)

/-- Substitution one of the repair pass: every single quote not preceded (in
the original text) by a backslash becomes a double quote. -/
def fixQuotes (prev : Option Char) : List Char → List Char
  | [] => []
  | c :: rest =>
    (if c = '\'' && prev ≠ some '\\' then '"' else c) :: fixQuotes (some c) rest

/-- Substitution two of the repair pass: drop a comma standing directly
before a closing brace (whitespace allowed between).  The fuel only bounds
the recursion; each step consumes at least one character, so a fuel equal
to the input length is never exhausted. -/
def subCommaCloseF : Nat → List Char → List Char
  | 0, l => l
  | _ + 1, [] => []
  | n + 1, c :: rest =>
    if c = ',' then
      match rest.dropWhile pySpace with
      | '}' :: r2 => '}' :: subCommaCloseF n r2
      | _ => c :: subCommaCloseF n rest
    else c :: subCommaCloseF n rest

def subCommaClose (l : List Char) : List Char := subCommaCloseF l.length l

/-- Substitution three of the repair pass: drop a comma standing directly
before a closing bracket (whitespace allowed between). -/
def subCommaBracketF : Nat → List Char → List Char
  | 0, l => l
  | _ + 1, [] => []
  | n + 1, c :: rest =>
    if c = ',' then
      match rest.dropWhile pySpace with
      | ']' :: r2 => ']' :: subCommaBracketF n r2
      | _ => c :: subCommaBracketF n rest
    else c :: subCommaBracketF n rest

def subCommaBracket (l : List Char) : List Char := subCommaBracketF l.length l

/-- Substitution four of the repair pass: quote bare (unquoted) object keys
made of word characters. -/
def subBareKeysF : Nat → List Char → List Char
  | 0, l => l
  | _ + 1, [] => []
  | n + 1, c :: rest =>
    if c = '{' || c = ',' then
      match ((rest.dropWhile pySpace).dropWhile isWordChar).dropWhile pySpace with
      | ':' :: r4 =>
        if ((rest.dropWhile pySpace).takeWhile isWordChar).isEmpty then
          c :: subBareKeysF n rest
        else
          c :: (rest.takeWhile pySpace ++
            '"' :: ((rest.dropWhile pySpace).takeWhile isWordChar ++
              '"' :: ((rest.dropWhile pySpace).dropWhile isWordChar).takeWhile pySpace) ++
            [':']) ++ subBareKeysF n r4
      | _ => c :: subBareKeysF n rest
    else c :: subBareKeysF n rest

def subBareKeys (l : List Char) : List Char := subBareKeysF l.length l

/-- The chain of the three regex substitutions of `fix_json_string`,
before the bracket-balancing appends. -/
def braceBase (js : List Char) : List Char :=
  subBareKeys (subCommaBracket (subCommaClose (fixQuotes none js)))

/-- Embedding of `fix_json_string`. -/
def fix_json_string (js : List Char) : List Char :=
  let s4 := braceBase js
  let s5 := if s4.count '[' > s4.count ']'
    then s4 ++ List.replicate (s4.count '[' - s4.count ']') ']' else s4
  let s6 := if s5.count '{' > s5.count '}'
    then s5 ++ List.replicate (s5.count '{' - s5.count '}') '}' else s5
  s6

def hexVal (c : Char) : Option Nat :=
  if '0' ≤ c ∧ c ≤ '9' then some (c.toNat - 48)
  else if 'a' ≤ c ∧ c ≤ 'f' then some (c.toNat - 87)
  else if 'A' ≤ c ∧ c ≤ 'F' then some (c.toNat - 55)
  else none

/-- String body scanner of the Python decoder (`py_scanstring`, strict
mode): called after the opening quote; returns content and remainder. -/
def parseStrRest : Nat → List Char → List Char → Option (List Char × List Char)
  | 0, _, _ => none
  | _ + 1, _, [] => none
  | n + 1, acc, c :: rest =>
    if c = '"' then some (acc.reverse, rest)
    else if c = '\\' then
      match rest with
      | [] => none
      | e :: r2 =>
        if e = '"' then parseStrRest n ('"' :: acc) r2
        else if e = '\\' then parseStrRest n ('\\' :: acc) r2
        else if e = '/' then parseStrRest n ('/' :: acc) r2
        else if e = 'b' then parseStrRest n ('\x08' :: acc) r2
        else if e = 'f' then parseStrRest n ('\x0c' :: acc) r2
        else if e = 'n' then parseStrRest n ('\n' :: acc) r2
        else if e = 'r' then parseStrRest n ('\r' :: acc) r2
        else if e = 't' then parseStrRest n ('\t' :: acc) r2
        else if e = 'u' then
          match r2 with
          | h1 :: h2 :: h3 :: h4 :: r3 =>
            match hexVal h1, hexVal h2, hexVal h3, hexVal h4 with
            | some a, some b, some c2, some d =>
              let v := ((a * 16 + b) * 16 + c2) * 16 + d
              if 0xD800 ≤ v ∧ v ≤ 0xDBFF then
                match r3 with
                | '\\' :: 'u' :: g1 :: g2 :: g3 :: g4 :: r4 =>
                  match hexVal g1, hexVal g2, hexVal g3, hexVal g4 with
                  | some a2, some b2, some c3, some d2 =>
                    let w := ((a2 * 16 + b2) * 16 + c3) * 16 + d2
                    if 0xDC00 ≤ w ∧ w ≤ 0xDFFF then
                      parseStrRest n
                        (Char.ofNat (0x10000 + (v - 0xD800) * 0x400 + (w - 0xDC00)) :: acc) r4
                    else parseStrRest n (Char.ofNat v :: acc) r3
                  | _, _, _, _ => none
                | _ => parseStrRest n (Char.ofNat v :: acc) r3
              else parseStrRest n (Char.ofNat v :: acc) r3
            | _, _, _, _ => none
          | _ => none
        else none
    else if c.toNat < 0x20 then none
    else parseStrRest n (c :: acc) rest

/-- The decoder's NUMBER_RE `(-?(?:0|[1-9]\d*))(\.\d+)?([eE][-+]?\d+)?`,
anchored at the front; returns the raw token and the remainder. -/
def parseNum (l : List Char) : Option (List Char × List Char) :=
  let (neg, r1) : List Char × List Char :=
    match l with
    | '-' :: r => (['-'], r)
    | _ => ([], l)
  match r1 with
  | [] => none
  | c :: r2 =>
    if c = '0' ∨ (isDigitChar c && decide (c ≠ '0')) = true then
      let intPart : List Char × List Char :=
        if c = '0' then ([c], r2)
        else (c :: r2.takeWhile isDigitChar, r2.dropWhile isDigitChar)
      let (ip, rest1) := intPart
      let fracPart : List Char × List Char :=
        match rest1 with
        | '.' :: r3 =>
          if (r3.takeWhile isDigitChar).isEmpty then ([], rest1)
          else ('.' :: r3.takeWhile isDigitChar, r3.dropWhile isDigitChar)
        | _ => ([], rest1)
      let (fp, rest2) := fracPart
      let expPart : List Char × List Char :=
        match rest2 with
        | e :: r4 =>
          if e = 'e' || e = 'E' then
            match r4 with
            | s :: r5 =>
              if s = '+' || s = '-' then
                if (r5.takeWhile isDigitChar).isEmpty then ([], rest2)
                else (e :: s :: r5.takeWhile isDigitChar, r5.dropWhile isDigitChar)
              else if (r4.takeWhile isDigitChar).isEmpty then ([], rest2)
              else (e :: r4.takeWhile isDigitChar, r4.dropWhile isDigitChar)
            | [] => ([], rest2)
          else ([], rest2)
        | [] => ([], rest2)
      let (ep, rest3) := expPart
      some (neg ++ ip ++ fp ++ ep, rest3)
    else none

def jsonWsChar (c : Char) : Bool := c = ' ' || c = '\t' || c = '\n' || c = '\r'

def skipWs (l : List Char) : List Char := l.dropWhile jsonWsChar

mutual
/-- One JSON value (the Python scanner's `scan_once`, with the decoder's
whitespace skipping folded in). -/
def parseVal : Nat → List Char → Option (JValue × List Char)
  | 0, _ => none
  | n + 1, l =>
    match skipWs l with
    | [] => none
    | c :: rest =>
      if c = '"' then
        match parseStrRest (n + 1) [] rest with
        | some (s, r) => some (.str s, r)
        | none => none
      else if c = '{' then parseMembers n rest
      else if c = '[' then parseElems n rest
      else
        let l' := c :: rest
        if "null".toList.isPrefixOf l' then some (.null, l'.drop 4)
        else if "true".toList.isPrefixOf l' then some (.bool true, l'.drop 4)
        else if "false".toList.isPrefixOf l' then some (.bool false, l'.drop 5)
        else
          match parseNum l' with
          | some (tok, r) => some (.num tok, r)
          | none =>
            if "NaN".toList.isPrefixOf l' then some (.num "NaN".toList, l'.drop 3)
            else if "Infinity".toList.isPrefixOf l' then
              some (.num "Infinity".toList, l'.drop 8)
            else if "-Infinity".toList.isPrefixOf l' then
              some (.num "-Infinity".toList, l'.drop 9)
            else none

/-- Object body, called after `{`. -/
def parseMembers : Nat → List Char → Option (JValue × List Char)
  | 0, _ => none
  | n + 1, l =>
    match skipWs l with
    | '}' :: r => some (.obj [], r)
    | '"' :: r => parsePairs n [] r
    | _ => none

/-- Members loop; `l` starts just after a key's opening quote. -/
def parsePairs : Nat → List (List Char × JValue) → List Char →
    Option (JValue × List Char)
  | 0, _, _ => none
  | n + 1, acc, l =>
    match parseStrRest (n + 1) [] l with
    | none => none
    | some (k, r1) =>
      match skipWs r1 with
      | ':' :: r2 =>
        match parseVal n r2 with
        | none => none
        | some (v, r3) =>
          match skipWs r3 with
          | ',' :: r4 =>
            match skipWs r4 with
            | '"' :: r5 => parsePairs n (acc ++ [(k, v)]) r5
            | _ => none
          | '}' :: r4 => some (.obj (acc ++ [(k, v)]), r4)
          | _ => none
      | _ => none

/-- Array body, called after `[`. -/
def parseElems : Nat → List Char → Option (JValue × List Char)
  | 0, _ => none
  | n + 1, l =>
    match skipWs l with
    | ']' :: r => some (.arr [], r)
    | _ =>
      match parseVal n l with
      | none => none
      | some (v, r1) => parseElemsRest n [v] r1

def parseElemsRest : Nat → List JValue → List Char → Option (JValue × List Char)
  | 0, _, _ => none
  | n + 1, acc, l =>
    match skipWs l with
    | ',' :: r =>
      match parseVal n r with
      | none => none
      | some (v, r1) => parseElemsRest n (acc ++ [v]) r1
    | ']' :: r => some (.arr acc, r)
    | _ => none
end

/-- Embedding of `json.loads` (default arguments): leading/trailing
whitespace allowed, everything must be consumed. -/
def jsonLoads (l : List Char) : Option JValue :=
  match parseVal (4 * l.length + 16) l with
  | some (v, rest) => if (skipWs rest).isEmpty then some v else none
  | none => none

/-- Anchored attempt of the salvage pattern `"KEY"\s*:\s*"([^"]+)"`. -/
def salvageAt (key : List Char) (cs : List Char) : Option (List Char) :=
  match stripPref ('"' :: (key ++ ['"'])) cs with
  | none => none
  | some r1 =>
    match r1.dropWhile pySpace with
    | ':' :: r3 =>
      match r3.dropWhile pySpace with
      | '"' :: r5 =>
        match r5.dropWhile (fun c => !(decide (c = '"'))) with
        | '"' :: _ =>
          if (r5.takeWhile (fun c => !(decide (c = '"')))).isEmpty then none
          else some (r5.takeWhile (fun c => !(decide (c = '"'))))
        | _ => none
      | _ => none
    | _ => none

/-- Leftmost successful anchor of a salvage pattern (`re.search`). -/
def salvageField (key : List Char) : List Char → Option (List Char)
  | [] => none
  | c :: rest =>
    match salvageAt key (c :: rest) with
    | some v => some v
    | none => salvageField key rest

/-- Lines 343-353 of the source: the manually synthesized record, built if
and only if all five salvage searches succeed on the pre-repair candidate. -/
def salvageRecord (js : List Char) : Option JValue :=
  match salvageField titleKey js with
  | none => none
  | some t =>
    match salvageField precondKey js with
    | none => none
    | some p =>
      match salvageField stepsKey js with
      | none => none
      | some s =>
        match salvageField expectedKey js with
        | none => none
        | some e =>
          match salvageField prioKey js with
          | none => none
          | some pr =>
            some (.obj [(titleKey, .str t), (precondKey, .str p), (stepsKey, .str s),
              (expectedKey, .str e), (prioKey, .str pr)])

def keyPresent (kvs : List (List Char × JValue)) (f : List Char) : Bool :=
  kvs.any (fun p => p.1 == f)

/-- Python's `field in value` for a JSON-decoded value: key membership for a
dict, element equality for a list, substring test for a string, and a
`TypeError` (`none`) for any other type. -/
def pyHasField (f : List Char) : JValue → Option Bool
  | .obj kvs => some (keyPresent kvs f)
  | .arr xs => some (xs.any (fun x => jbeq x (.str f)))
  | .str s => some (isSubstr f s)
  | .null => none
  | .bool _ => none
  | .num _ => none

/-- Membership test of every required field, as the source's `all(field in
test_case for field in required_fields)`. -/
def fieldsCheck (tc : JValue) : Option Bool :=
  match tc with
  | .null => none
  | .bool _ => none
  | .num _ => none
  | _ => some (requiredFields.all (fun f => (pyHasField f tc).getD false))

/-- List of the required fields absent from the record, as the source's
comprehension over `required_fields`. -/
def missingOf (tc : JValue) : List (List Char) :=
  requiredFields.filter (fun f => !((pyHasField f tc).getD false))

/-- Last-wins lookup, matching a Python dict built by sequential insertion
from the member list. -/
def jLookup (kvs : List (List Char × JValue)) (k : List Char) : Option JValue :=
  match kvs with
  | [] => none
  | (k', v') :: rest =>
    match jLookup rest k with
    | some r => some r
    | none => if k' == k then some v' else none

/-- Subscript access to the parsed value at the `test_cases` key: dict
lookup; indexing a list or a string with a string key raises (`none`). -/
def getItem : JValue → Option JValue
  | .obj kvs => jLookup kvs tcKey
  | _ => none

/-- The per-record validation loop (source lines 366-377). -/
def validateLoop : List JValue → PyResult
  | [] => .ok [] []
  | tc :: rest =>
    match fieldsCheck tc with
    | none => .exit 1
    | some true =>
      match validateLoop rest with
      | .exit c => .exit c
      | .ok vs ds => .ok (tc :: vs) ds
    | some false =>
      match validateLoop rest with
      | .exit c => .exit c
      | .ok vs ds => .ok vs (Diag.missingFields (missingOf tc) :: ds)

/-- Source lines 359-377: container check then the validation loop. -/
def validateStage (v : JValue) : PyResult :=
  match pyHasField tcKey v with
  | none => .exit 1
  | some false => .ok [] [Diag.invalidFormat]
  | some true =>
    match getItem v with
    | none => .exit 1
    | some (JValue.arr cases) => validateLoop cases
    | some _ => .ok [] [Diag.invalidFormat]

/-- Source lines 317-357: strict parse, repair-and-retry, field salvage. -/
def decodeCore (js : List Char) : PyResult :=
  match jsonLoads js with
  | some v => validateStage v
  | none =>
    match jsonLoads (fix_json_string js) with
    | some v => withDiag [Diag.initialParseError, Diag.fixedParse] (validateStage v)
    | none =>
      match salvageRecord js with
      | some rec =>
        withDiag [Diag.initialParseError, Diag.fixedParseError, Diag.createdManually]
          (validateStage (JValue.obj [(tcKey, JValue.arr [rec])]))
      | none =>
        .ok [] [Diag.initialParseError, Diag.fixedParseError, Diag.manualExtractionFailed]

/-- Embedding of `parse_test_cases`, on the response text extracted from the
envelope (missing `candidates` yields the empty text). -/
def parse_test_cases (text : List Char) : PyResult :=
  if text.isEmpty then .exit 1
  else
    match fenceSearch text with
    | some js => withDiag [Diag.foundJsonInCodeBlock] (decodeCore js)
    | none =>
      match bareExtract text with
      | some js => withDiag [Diag.foundJsonWithoutCodeBlock] (decodeCore js)
      | none => .ok [] [Diag.noJsonFound]

/-- Validation keeps an object record iff every required field key occurs. -/
def objKeep (kvs : List (List Char × JValue)) : Bool :=
  requiredFields.all (keyPresent kvs)

/-- The missing-field list reported for a dropped object record. -/
def objMissing (kvs : List (List Char × JValue)) : List (List Char) :=
  requiredFields.filter (fun f => !(keyPresent kvs f))

def objRecordOk : JValue → Bool
  | .obj kvs => objKeep kvs
  | _ => false

/-- The shape of the text the fenced-extraction property is about: prose,
opening fence with optional tag, whitespace, payload, whitespace, closing
fence, prose. -/
def wrapFence (p1 : List Char) (tagged : Bool) (w1 J w2 p2 : List Char) : List Char :=
  p1 ++ fenceMarker ++ (if tagged then jsonTag else []) ++ w1 ++ J ++ w2 ++ fenceMarker ++ p2

def recHigh : JValue :=
  .obj [(titleKey, .str "t".toList), (precondKey, .str "p".toList),
    (stepsKey, .str "s".toList), (expectedKey, .str "e".toList),
    (prioKey, .str "High".toList)]

def recLow : JValue :=
  .obj [(titleKey, .str "t".toList), (precondKey, .str "p".toList),
    (stepsKey, .str "s".toList), (expectedKey, .str "e".toList),
    (prioKey, .str "Low".toList)]

/-- The trailing-comma input of the spec (claim C5). -/
def c5text : List Char :=
  "\x7b\"test_cases\": [\x7b\"title\":\"t\",\"preconditions\":\"p\",\"steps\":\"s\",\"expected_results\":\"e\",\"priority\":\"High\",\x7d]\x7d".toList

/-- The truncated input of the spec (claim C6), missing the final pair of
closing brackets. -/
def c6text : List Char :=
  "\x7b\"test_cases\": [\x7b\"title\":\"t\",\"preconditions\":\"p\",\"steps\":\"s\",\"expected_results\":\"e\",\"priority\":\"Low\"\x7d".toList

/-- A four-of-five-fields input: `priority` is absent (claim C3). -/
def c3text : List Char :=
  "\x7b\"test_cases\": [\x7b\"title\":\"t\",\"preconditions\":\"p\",\"steps\":\"s\",\"expected_results\":\"e\"\x7d]\x7d".toList

/-- A well-formed single-object payload with one valid record. -/
def sWtext : List Char :=
  "\x7b\"test_cases\": [\x7b\"title\": \"t\", \"preconditions\": \"p\", \"steps\": \"s\", \"expected_results\": \"e\", \"priority\": \"High\"\x7d]\x7d".toList

def sWkvs : List (List Char × JValue) := [(tcKey, JValue.arr [recHigh])]

/-- A valid JSON object carrying one valid record, whose `note` string value
contains a fenced code block; the fenced extraction fires inside the string
value (claim C2 counterexample). -/
def sC2text : List Char :=
  "\x7b\"test_cases\": [\x7b\"title\": \"t\", \"preconditions\": \"p\", \"steps\": \"s\", \"expected_results\": \"e\", \"priority\": \"High\"\x7d], \"note\": \"```json \x7b\x7d ```\"\x7d".toList

/-- The candidate of claim C10: truncated inside an inner object of an
array, so a close brace is needed before the close bracket. -/
def c10cand : List Char := "\x7b\"test_cases\": [\x7b\"title\": \"t\"".toList

/-- Leading prose for the claim C4 counterexample: it already contains a
complete fenced block, which the leftmost search picks up instead of the
real payload. -/
def c4badProse : List Char := "Note ```json \x7b\x7d ``` first.\n```json\n".toList

def c4badText : List Char := c4badProse ++ sWtext ++ "\n```\n".toList

theorem stripPref_append (p l : List Char) : stripPref p (p ++ l) = some l := by
  induction p with
  | nil => rfl
  | cons c ps ih => simp [stripPref, ih]

theorem stripPref_sound (p : List Char) :
    ∀ l r, stripPref p l = some r → l = p ++ r := by
  induction p with
  | nil => intro l r h; simp [stripPref] at h; simp [h]
  | cons c ps ih =>
    intro l r h
    cases l with
    | nil => simp [stripPref] at h
    | cons d ds =>
      simp only [stripPref] at h
      by_cases hd : d = c
      · simp [hd] at h
        have := ih ds r h
        simp [hd, this]
      · simp [hd] at h

theorem lacksChar_append (x : Char) (a b : List Char) :
    lacksChar x (a ++ b) = (lacksChar x a && lacksChar x b) := by
  induction a with
  | nil => simp [lacksChar]
  | cons c r ih =>
    by_cases h : c = x
    · simp [lacksChar, h]
    · simp [lacksChar, h, ih]

theorem lacksChar_cons_iff (x c : Char) (r : List Char) :
    lacksChar x (c :: r) = true ↔ (c ≠ x ∧ lacksChar x r = true) := by
  by_cases h : c = x <;> simp [lacksChar, h]

theorem fenceAt_nonbtick (c : Char) (l : List Char) (h : c ≠ btick) :
    fenceAt (c :: l) = none := by
  simp only [fenceAt, fenceMarker, stripPref]
  simp [h]

theorem fenceSearch_append_nofence (p rest : List Char)
    (h : lacksChar btick p = true) : fenceSearch (p ++ rest) = fenceSearch rest := by
  induction p with
  | nil => simp
  | cons c ps ih =>
    rw [lacksChar_cons_iff] at h
    simp only [List.cons_append, fenceSearch, fenceAt_nonbtick c _ h.1]
    exact ih h.2

theorem fenceSearch_none_of_lacks (s : List Char)
    (h : lacksChar btick s = true) : fenceSearch s = none := by
  have := fenceSearch_append_nofence s [] h
  simpa using this

theorem trunc_last (t : List Char) (h : t.getLast? = some '}') :
    truncAtLastClose t = some t := by
  induction t with
  | nil => simp at h
  | cons c rest ih =>
    cases rest with
    | nil =>
      simp [List.getLast?] at h
      simp [truncAtLastClose, h]
    | cons d ds =>
      rw [List.getLast?_cons_cons] at h
      show (match truncAtLastClose (d :: ds) with
        | some t => some (c :: t)
        | none => if c = '}' then some [c] else none) = some (c :: d :: ds)
      rw [ih h]

theorem bareExtract_self (t : List Char) (h : t.getLast? = some '}') :
    bareExtract ('{' :: t) = some ('{' :: t) := by
  simp [bareExtract, dropToBrace, trunc_last t h]

theorem trunc_none_of_noClose (t : List Char) (h : hasCharB '}' t = false) :
    truncAtLastClose t = none := by
  induction t with
  | nil => rfl
  | cons c rest ih =>
    simp only [hasCharB] at h
    by_cases hc : c = '}'
    · simp [hc] at h
    · simp [hc] at h
      simp [truncAtLastClose, ih h, hc]

theorem dropToBrace_noPair (l : List Char) :
    hasBracePair l = false → ∀ rest, dropToBrace l = some rest →
    hasCharB '}' rest = false := by
  induction l with
  | nil => intro _ rest h; simp [dropToBrace] at h
  | cons c r ih =>
    intro hp rest h
    simp only [hasBracePair, Bool.or_eq_false_iff, Bool.and_eq_false_iff] at hp
    simp only [dropToBrace] at h
    by_cases hc : c = '{'
    · simp [hc] at h
      rcases hp.1 with h1 | h1
      · simp [hc] at h1
      · rw [← h]; exact h1
    · simp [hc] at h
      exact ih hp.2 rest h

theorem bareExtract_none_of_noPair (l : List Char)
    (h : hasBracePair l = false) : bareExtract l = none := by
  unfold bareExtract
  cases hd : dropToBrace l with
  | none => rfl
  | some rest =>
    have := dropToBrace_noPair l h rest hd
    simp [trunc_none_of_noClose rest this]

theorem lazyScan_mem (l : List Char) :
    ∀ acc cap, lazyScan acc l = some cap → hasCharB '}' l = true := by
  induction l with
  | nil => intro acc cap h; simp [lazyScan] at h
  | cons c rest ih =>
    intro acc cap h
    simp only [lazyScan] at h
    by_cases hc : (decide (c = '}') && fenceCloseOk rest) = true
    · have : c = '}' := by
        rcases Bool.and_eq_true_iff.mp hc with ⟨h1, _⟩
        exact of_decide_eq_true h1
      simp [hasCharB, this]
    · rw [if_neg hc] at h
      have h2 := ih (c :: acc) cap h
      simp only [hasCharB]
      by_cases hcc : c = '}'
      · simp [hcc]
      · simp [hcc, h2]

theorem hasBracePair_cons_of (c : Char) (l : List Char)
    (h : hasBracePair l = true) : hasBracePair (c :: l) = true := by
  simp [hasBracePair, h]

theorem hasBracePair_append_right (u l : List Char)
    (h : hasBracePair l = true) : hasBracePair (u ++ l) = true := by
  induction u with
  | nil => simpa using h
  | cons c r ih => exact hasBracePair_cons_of c _ ih

theorem fenceAt_some_pair (cs : List Char) (cap : List Char)
    (h : fenceAt cs = some cap) : hasBracePair cs = true := by
  unfold fenceAt at h
  revert h
  cases hs : stripPref fenceMarker cs with
  | none => intro h; simp at h
  | some r1 =>
    intro h
    have hcs : cs = fenceMarker ++ r1 := stripPref_sound _ _ _ hs
    simp only at h
    revert h
    cases hm : (if jsonTag.isPrefixOf r1 then r1.drop 4 else r1).dropWhile pySpace with
    | nil => intro h; simp at h
    | cons c0 r4 =>
      intro h
      have hr2 : ∃ u, r1 = u ++ (if jsonTag.isPrefixOf r1 then r1.drop 4 else r1) := by
        by_cases ht : jsonTag.isPrefixOf r1
        · simp only [ht, if_true]
          exact ⟨r1.take 4, (List.take_append_drop 4 r1).symm⟩
        · simp only [ht, if_false]
          exact ⟨[], rfl⟩
      split at h
      · next r4' heq =>
        obtain ⟨hc0, hr4⟩ := List.cons.inj heq
        have h4 : hasCharB '}' r4' = true := lazyScan_mem r4' [] cap h
        have hpr : hasBracePair (c0 :: r4) = true := by
          rw [hc0, hr4]; simp [hasBracePair, h4]
        have hstep : hasBracePair (if jsonTag.isPrefixOf r1 then r1.drop 4 else r1) = true := by
          have hsplit : (if jsonTag.isPrefixOf r1 then r1.drop 4 else r1)
              = (if jsonTag.isPrefixOf r1 then r1.drop 4 else r1).takeWhile pySpace
                ++ (c0 :: r4) := by
            rw [← hm, List.takeWhile_append_dropWhile]
          rw [hsplit]
          exact hasBracePair_append_right _ _ hpr
        obtain ⟨u, hu⟩ := hr2
        rw [hcs, hu]
        exact hasBracePair_append_right _ _ (hasBracePair_append_right _ _ hstep)
      · simp at h

theorem fenceSearch_none_of_noPair (text : List Char)
    (h : hasBracePair text = false) : fenceSearch text = none := by
  induction text with
  | nil => rfl
  | cons c rest ih =>
    simp only [fenceSearch]
    cases hf : fenceAt (c :: rest) with
    | some cap =>
      have := fenceAt_some_pair _ _ hf
      rw [this] at h
      exact absurd h (by simp)
    | none =>
      simp only [hasBracePair, Bool.or_eq_false_iff] at h
      exact ih h.2

theorem jLookup_some_keyPresent (kvs : List (List Char × JValue)) (k : List Char)
    (v : JValue) (h : jLookup kvs k = some v) : keyPresent kvs k = true := by
  induction kvs generalizing v with
  | nil => simp [jLookup] at h
  | cons p rest ih =>
    obtain ⟨k', v'⟩ := p
    simp only [jLookup] at h
    revert h
    cases hr : jLookup rest k with
    | some r =>
      intro h
      have hr' : keyPresent rest k = true := ih r hr
      simp only [keyPresent, List.any_cons]
      simp only [keyPresent] at hr'
      rw [hr']
      simp
    | none =>
      intro h
      by_cases hk : (k' == k) = true
      · simp only [keyPresent, List.any_cons]
        rw [hk]
        simp
      · simp [hk] at h

theorem validateLoop_cons_some (tc : JValue) (b : Bool) (h : fieldsCheck tc = some b)
    (rest : List JValue) (vs : List JValue) (ds : List Diag)
    (hr : validateLoop rest = .ok vs ds) :
    validateLoop (tc :: rest) =
      if b then PyResult.ok (tc :: vs) ds
      else PyResult.ok vs (Diag.missingFields (missingOf tc) :: ds) := by
  simp only [validateLoop]
  rw [h]
  cases b
  · simp only [if_false, Bool.false_eq_true]
    rw [hr]
  · simp only [if_true]
    rw [hr]

theorem validateLoop_all_ok (cs : List JValue) (h : cs.all objRecordOk = true) :
    validateLoop cs = .ok cs [] := by
  induction cs with
  | nil => rfl
  | cons tc rest ih =>
    simp only [List.all_cons, Bool.and_eq_true] at h
    obtain ⟨h1, h2⟩ := h
    cases tc with
    | null => simp [objRecordOk] at h1
    | bool b => simp [objRecordOk] at h1
    | num r => simp [objRecordOk] at h1
    | str s => simp [objRecordOk] at h1
    | arr xs => simp [objRecordOk] at h1
    | obj kvs =>
      have h1' : objKeep kvs = true := by simpa [objRecordOk] using h1
      rw [validateLoop_cons_some (JValue.obj kvs) (objKeep kvs) rfl rest rest [] (ih h2), h1']
      simp

theorem recordsOf_withDiag (d : List Diag) (r : PyResult) :
    recordsOf (withDiag d r) = recordsOf r := by
  cases r <;> rfl

theorem dropW_stops (v rest : List Char) (hlb : lacksChar btick v = true)
    (hns : v.all pySpace = false) :
    ∃ c r, (v ++ rest).dropWhile pySpace = c :: r ∧ c ≠ btick := by
  induction v with
  | nil => simp at hns
  | cons c v' ih =>
    rw [lacksChar_cons_iff] at hlb
    by_cases hc : pySpace c
    · have hns' : v'.all pySpace = false := by
        simp only [List.all_cons, hc, Bool.true_and] at hns
        exact hns
      obtain ⟨c0, r0, h0, hne⟩ := ih hlb.2 hns'
      refine ⟨c0, r0, ?_, hne⟩
      simp only [List.cons_append, List.dropWhile_cons, hc, if_true]
      exact h0
    · exact ⟨c, v' ++ rest, by simp [List.cons_append, List.dropWhile_cons, hc], hlb.1⟩

theorem fenceCloseOk_false_of (v rest : List Char) (hlb : lacksChar btick v = true)
    (hns : v.all pySpace = false) : fenceCloseOk (v ++ rest) = false := by
  obtain ⟨c, r, h, hne⟩ := dropW_stops v rest hlb hns
  unfold fenceCloseOk
  rw [h]
  have hbc : (btick == c) = false := by
    simp only [beq_eq_false_iff_ne]
    exact fun hh => hne hh.symm
  simp only [fenceMarker, List.isPrefixOf_cons₂, hbc, Bool.false_and]

theorem fenceClose_marker (w2 p2 : List Char) (hw2 : w2.all pySpace = true) :
    fenceCloseOk (w2 ++ (fenceMarker ++ p2)) = true := by
  unfold fenceCloseOk
  have h1 : (w2 ++ (fenceMarker ++ p2)).dropWhile pySpace
      = (fenceMarker ++ p2).dropWhile pySpace :=
    List.dropWhile_append_of_pos (fun a ha => (List.all_eq_true.mp hw2) a ha)
  rw [h1]
  have h2 : (fenceMarker ++ p2).dropWhile pySpace = fenceMarker ++ p2 := by
    simp only [fenceMarker, List.cons_append, List.dropWhile_cons]
    simp [show pySpace btick = false from by decide]
  rw [h2]
  simp [fenceMarker, List.isPrefixOf_cons₂]

theorem lazyScan_through (w2 p2 : List Char) (hw2 : w2.all pySpace = true) :
    ∀ (u : List Char), lacksChar btick u = true → ∀ acc,
    lazyScan acc (u ++ '}' :: (w2 ++ (fenceMarker ++ p2)))
      = some ('{' :: (acc.reverse ++ (u ++ ['}']))) := by
  intro u
  induction u with
  | nil =>
    intro _ acc
    simp only [List.nil_append]
    simp only [lazyScan, fenceClose_marker w2 p2 hw2]
    simp
  | cons c u' ih =>
    intro hlb acc
    rw [lacksChar_cons_iff] at hlb
    simp only [List.cons_append, lazyScan, List.append_eq]
    have hcond : (decide (c = '}')
        && fenceCloseOk (u' ++ '}' :: (w2 ++ (fenceMarker ++ p2)))) = false := by
      by_cases hc : c = '}'
      · have hfc : fenceCloseOk ((u' ++ ['}']) ++ (w2 ++ (fenceMarker ++ p2))) = false := by
          apply fenceCloseOk_false_of
          · rw [lacksChar_append]
            rw [hlb.2]
            simp [lacksChar, show ('}' : Char) ≠ btick from by decide]
          · simp [List.all_append, pySpace]
        have heq : (u' ++ ['}']) ++ (w2 ++ (fenceMarker ++ p2))
            = u' ++ '}' :: (w2 ++ (fenceMarker ++ p2)) := by simp
        rw [heq] at hfc
        rw [hfc]
        simp
      · simp [hc]
    rw [hcond]
    simp only [Bool.false_eq_true, if_false]
    rw [ih hlb.2 (c :: acc)]
    simp

theorem fenceAt_wrapped (tagged : Bool) (w1 body w2 p2 : List Char)
    (hw1 : w1.all pySpace = true) (hw2 : w2.all pySpace = true)
    (hbody : lacksChar btick body = true) :
    fenceAt (fenceMarker ++ ((if tagged then jsonTag else []) ++ (w1 ++
        (('{' :: (body ++ ['}'])) ++ (w2 ++ (fenceMarker ++ p2))))))
      = some ('{' :: (body ++ ['}'])) := by
  unfold fenceAt
  rw [stripPref_append]
  have hdrop : ∀ l, w1 ++ (('{' :: (body ++ ['}'])) ++ l) =
      w1 ++ ('{' :: (body ++ ['}'] ++ l)) := by
    intro l
    simp
  have hws : (w1 ++ ('{' :: (body ++ ['}']) ++ (w2 ++ (fenceMarker ++ p2)))).dropWhile pySpace
      = '{' :: ((body ++ ['}']) ++ (w2 ++ (fenceMarker ++ p2))) := by
    rw [List.dropWhile_append_of_pos (fun a ha => (List.all_eq_true.mp hw1) a ha)]
    simp only [List.cons_append, List.dropWhile_cons]
    simp [show pySpace '{' = false from by decide]
  cases tagged with
  | true =>
    simp only [if_true]
    have htag : jsonTag.isPrefixOf (jsonTag ++ (w1 ++
        (('{' :: (body ++ ['}'])) ++ (w2 ++ (fenceMarker ++ p2))))) = true := by
      simp [jsonTag, List.isPrefixOf_cons₂]
    rw [htag]
    simp only [if_true]
    have hdrop4 : (jsonTag ++ (w1 ++ (('{' :: (body ++ ['}'])) ++
        (w2 ++ (fenceMarker ++ p2))))).drop 4
        = w1 ++ (('{' :: (body ++ ['}'])) ++ (w2 ++ (fenceMarker ++ p2))) := by
      simp [jsonTag]
    rw [hdrop4]
    have hws' : (w1 ++ (('{' :: (body ++ ['}'])) ++ (w2 ++ (fenceMarker ++ p2)))).dropWhile pySpace
        = '{' :: ((body ++ ['}']) ++ (w2 ++ (fenceMarker ++ p2))) := by
      rw [List.dropWhile_append_of_pos (fun a ha => (List.all_eq_true.mp hw1) a ha)]
      simp only [List.cons_append, List.dropWhile_cons]
      simp [show pySpace '{' = false from by decide]
    rw [hws']
    have hassoc : (body ++ ['}']) ++ (w2 ++ (fenceMarker ++ p2))
        = body ++ '}' :: (w2 ++ (fenceMarker ++ p2)) := by simp
    rw [hassoc]
    show lazyScan [] (body ++ '}' :: (w2 ++ (fenceMarker ++ p2)))
      = some ('{' :: (body ++ ['}']))
    rw [lazyScan_through w2 p2 hw2 body hbody []]
    simp
  | false =>
    simp only [Bool.false_eq_true, if_false, List.nil_append]
    have htag : jsonTag.isPrefixOf (w1 ++
        (('{' :: (body ++ ['}'])) ++ (w2 ++ (fenceMarker ++ p2)))) = false := by
      cases w1 with
      | nil =>
        simp only [List.nil_append, List.cons_append]
        simp [jsonTag, List.isPrefixOf_cons₂, show ('j' == '{') = false from by decide]
      | cons cw w1' =>
        have hcw : pySpace cw = true := by
          have := List.all_eq_true.mp hw1 cw (by simp)
          exact this
        have hcj : ('j' == cw) = false := by
          simp only [beq_eq_false_iff_ne]
          intro hh
          rw [← hh] at hcw
          simp [pySpace] at hcw
        simp only [List.cons_append, jsonTag, List.isPrefixOf_cons₂, hcj, Bool.false_and]
    rw [htag]
    simp only [Bool.false_eq_true, if_false]
    rw [hws]
    have hassoc : (body ++ ['}']) ++ (w2 ++ (fenceMarker ++ p2))
        = body ++ '}' :: (w2 ++ (fenceMarker ++ p2)) := by simp
    rw [hassoc]
    show lazyScan [] (body ++ '}' :: (w2 ++ (fenceMarker ++ p2)))
      = some ('{' :: (body ++ ['}']))
    rw [lazyScan_through w2 p2 hw2 body hbody []]
    simp

theorem fenceSearch_wrapped (p1 : List Char) (tagged : Bool) (w1 body w2 p2 : List Char)
    (hp1 : lacksChar btick p1 = true)
    (hw1 : w1.all pySpace = true) (hw2 : w2.all pySpace = true)
    (hbody : lacksChar btick body = true) :
    fenceSearch (wrapFence p1 tagged w1 ('{' :: (body ++ ['}'])) w2 p2)
      = some ('{' :: (body ++ ['}'])) := by
  have hshape : wrapFence p1 tagged w1 ('{' :: (body ++ ['}'])) w2 p2
      = p1 ++ (fenceMarker ++ ((if tagged then jsonTag else []) ++ (w1 ++
        (('{' :: (body ++ ['}'])) ++ (w2 ++ (fenceMarker ++ p2)))))) := by
    simp [wrapFence, List.append_assoc]
  rw [hshape, fenceSearch_append_nofence _ _ hp1]
  have hfa := fenceAt_wrapped tagged w1 body w2 p2 hw1 hw2 hbody
  simp only [fenceMarker, List.append_assoc, List.cons_append, List.nil_append] at hfa
  simp only [fenceMarker, List.append_assoc, List.cons_append, List.nil_append]
  rw [fenceSearch]
  rw [hfa]

theorem fieldsCheck_obj (kvs : List (List Char × JValue)) :
    fieldsCheck (JValue.obj kvs) = some (objKeep kvs) := rfl

theorem missingOf_obj (kvs : List (List Char × JValue)) :
    missingOf (JValue.obj kvs) = objMissing kvs := rfl

theorem head_decomp (s : List Char) (c : Char) (h : s.head? = some c) :
    ∃ t, s = c :: t := by
  cases s with
  | nil => simp at h
  | cons d t =>
    have : d = c := by simpa using h
    exact ⟨t, by rw [this]⟩

/-- Claim C2, counterexample: a text that is exactly a valid JSON object with
a well-formed `test_cases` list, yet the extractor returns the empty list:
the `note` string value contains a fenced code block, the fenced extraction
fires inside that string value and hands `\x7b\x7d` to the parser. -/
theorem claim_C2_counterexample :
    jsonLoads sC2text = some (JValue.obj [(tcKey, JValue.arr [recHigh]),
      ("note".toList, JValue.str "```json \x7b\x7d ```".toList)])
    ∧ [recHigh].all objRecordOk = true
    ∧ parse_test_cases sC2text = .ok [] [Diag.foundJsonInCodeBlock, Diag.invalidFormat]
    ∧ ([] : List JValue) ≠ [recHigh] := by
  refine ⟨rfl, rfl, rfl, ?_⟩
  simp

/-- Claim C2 (amended): for every input text that is exactly a valid JSON
object (beginning with the open brace, ending with the close brace) whose
`test_cases` key holds a list of object records each possessing all five
required keys, and which contains no backtick character, the extractor
returns exactly those records, unmodified and in their original order. -/
theorem claim_C2_exact_records (s : List Char) (kvs : List (List Char × JValue))
    (cases : List JValue)
    (hbt : lacksChar btick s = true)
    (hh : s.head? = some '{') (hl : s.getLast? = some '}')
    (hload : jsonLoads s = some (.obj kvs))
    (hlk : jLookup kvs tcKey = some (.arr cases))
    (hrec : cases.all objRecordOk = true) :
    parse_test_cases s = .ok cases [Diag.foundJsonWithoutCodeBlock] := by
  obtain ⟨t, rfl⟩ := head_decomp s '{' hh
  have ht : t.getLast? = some '}' := by
    cases t with
    | nil =>
      rw [List.getLast?_singleton] at hl
      exact absurd (Option.some.inj hl) (by decide)
    | cons d ds => rwa [List.getLast?_cons_cons] at hl
  have hbare := bareExtract_self t ht
  have hkp : keyPresent kvs tcKey = true := jLookup_some_keyPresent kvs tcKey _ hlk
  have hval : validateStage (JValue.obj kvs) = .ok cases [] := by
    unfold validateStage
    rw [show pyHasField tcKey (JValue.obj kvs) = some (keyPresent kvs tcKey) from rfl, hkp]
    show (match getItem (JValue.obj kvs) with
      | none => PyResult.exit 1
      | some (JValue.arr cs) => validateLoop cs
      | some _ => PyResult.ok [] [Diag.invalidFormat]) = PyResult.ok cases []
    rw [show getItem (JValue.obj kvs) = jLookup kvs tcKey from rfl, hlk]
    exact validateLoop_all_ok cases hrec
  have hdec : decodeCore ('{' :: t) = .ok cases [] := by
    unfold decodeCore
    rw [hload]
    exact hval
  unfold parse_test_cases
  simp only [List.isEmpty_cons, Bool.false_eq_true, if_false]
  rw [fenceSearch_none_of_lacks _ hbt, hbare]
  show withDiag [Diag.foundJsonWithoutCodeBlock] (decodeCore ('{' :: t)) = _
  rw [hdec]
  rfl

/-- Claim C2, witness: the amended theorem applied to a concrete valid
single-object payload. -/
theorem claim_C2_witness :
    jsonLoads sWtext = some (JValue.obj sWkvs)
    ∧ parse_test_cases sWtext = .ok [recHigh] [Diag.foundJsonWithoutCodeBlock] :=
  ⟨rfl, claim_C2_exact_records sWtext sWkvs [recHigh] rfl rfl rfl rfl rfl rfl⟩

/-- Claim C3: in the validation loop an object record is kept if and only if
all five required keys are present (values unconstrained), every dropped
record yields a diagnostic naming exactly the missing keys, and in
particular a list whose only record carries four of the five keys yields an
empty result with a diagnostic naming `priority`. -/
theorem claim_C3_keep_iff_all_fields :
    (∀ l : List (List (List Char × JValue)),
      validateLoop (l.map JValue.obj)
        = .ok ((l.filter objKeep).map JValue.obj)
            ((l.filter (fun kv => !(objKeep kv))).map
              (fun kv => Diag.missingFields (objMissing kv))))
    ∧ parse_test_cases c3text
        = .ok [] [Diag.foundJsonWithoutCodeBlock, Diag.missingFields [prioKey]] := by
  constructor
  · intro l
    induction l with
    | nil => rfl
    | cons kv l' ih =>
      rw [List.map_cons,
        validateLoop_cons_some (JValue.obj kv) (objKeep kv) (fieldsCheck_obj kv)
          (l'.map JValue.obj) _ _ ih]
      cases hk : objKeep kv
      · simp only [Bool.false_eq_true, if_false, List.filter_cons, hk, missingOf_obj]
        simp
      · simp only [if_true, List.filter_cons, hk]
        simp
  · rfl

/-- Claim C4, counterexample: wrapping the payload in a fenced block with
leading prose does not always yield the same records as the unwrapped
payload — here the leading prose itself contains a fenced block holding an
empty object, the leftmost fenced match extracts it, and the wrapped text
yields no records while the payload alone yields one. -/
theorem claim_C4_counterexample :
    recordsOf (parse_test_cases c4badText) = some []
    ∧ recordsOf (parse_test_cases sWtext) = some [recHigh]
    ∧ recordsOf (parse_test_cases c4badText) ≠ recordsOf (parse_test_cases sWtext) := by
  refine ⟨rfl, rfl, ?_⟩
  intro hcontra
  rw [show recordsOf (parse_test_cases c4badText) = some [] from rfl,
    show recordsOf (parse_test_cases sWtext) = some [recHigh] from rfl] at hcontra
  simp at hcontra

/-- Claim C4 (amended): for every brace-delimited payload `J` free of
backticks, wrapping it in a fenced code block (optionally tagged `json`)
between backtick-free leading prose and arbitrary trailing text, with
whitespace padding inside the fence, yields the same record list as
extracting from `J` alone. -/
theorem claim_C4_fenced_same_records (p1 w1 J w2 p2 : List Char) (tagged : Bool)
    (hp1 : lacksChar btick p1 = true) (hJ : lacksChar btick J = true)
    (hh : J.head? = some '{') (hl : J.getLast? = some '}')
    (hw1 : w1.all pySpace = true) (hw2 : w2.all pySpace = true) :
    recordsOf (parse_test_cases (wrapFence p1 tagged w1 J w2 p2))
      = recordsOf (parse_test_cases J) := by
  obtain ⟨t, rfl⟩ := head_decomp J '{' hh
  have ht : t.getLast? = some '}' := by
    cases t with
    | nil =>
      rw [List.getLast?_singleton] at hl
      exact absurd (Option.some.inj hl) (by decide)
    | cons d ds => rwa [List.getLast?_cons_cons] at hl
  obtain ⟨body, rfl⟩ := List.getLast?_eq_some_iff.mp ht
  have hJ' := hJ
  rw [lacksChar_cons_iff] at hJ'
  have hbody : lacksChar btick body = true := by
    have h2 := hJ'.2
    simp only [lacksChar_append, Bool.and_eq_true] at h2
    exact h2.1
  have hfs := fenceSearch_wrapped p1 tagged w1 body w2 p2 hp1 hw1 hw2 hbody
  have hwne : (wrapFence p1 tagged w1 ('{' :: (body ++ ['}'])) w2 p2).isEmpty = false := by
    cases hcase : wrapFence p1 tagged w1 ('{' :: (body ++ ['}'])) w2 p2 with
    | nil =>
      rw [hcase] at hfs
      simp [fenceSearch] at hfs
    | cons c r => rfl
  have h1 : parse_test_cases (wrapFence p1 tagged w1 ('{' :: (body ++ ['}'])) w2 p2)
      = withDiag [Diag.foundJsonInCodeBlock] (decodeCore ('{' :: (body ++ ['}']))) := by
    unfold parse_test_cases
    rw [hwne]
    simp only [Bool.false_eq_true, if_false]
    rw [hfs]
  have h2 : parse_test_cases ('{' :: (body ++ ['}']))
      = withDiag [Diag.foundJsonWithoutCodeBlock] (decodeCore ('{' :: (body ++ ['}']))) := by
    unfold parse_test_cases
    simp only [List.isEmpty_cons, Bool.false_eq_true, if_false]
    rw [fenceSearch_none_of_lacks _ hJ, bareExtract_self _ (List.getLast?_concat body)]
  rw [h1, h2, recordsOf_withDiag, recordsOf_withDiag]

/-- Claim C4, witness: the amended theorem applied to a concrete wrapped
payload with prose on both sides. -/
theorem claim_C4_witness :
    recordsOf (parse_test_cases (wrapFence "Here are the cases:\n".toList true
        "\n".toList sWtext "\n".toList "\nDone.".toList))
      = recordsOf (parse_test_cases sWtext) :=
  claim_C4_fenced_same_records "Here are the cases:\n".toList "\n".toList sWtext
    "\n".toList "\nDone.".toList true rfl rfl rfl rfl rfl rfl

/-- Claim C5: the trailing-comma input of the spec is repaired by the
one-shot pass (strict parsing fails first), and extraction yields exactly
one record whose `priority` field equals `High`. -/
theorem claim_C5_trailing_comma :
    jsonLoads c5text = none
    ∧ parse_test_cases c5text
        = .ok [recHigh] [Diag.foundJsonWithoutCodeBlock, Diag.initialParseError,
            Diag.fixedParse] :=
  ⟨rfl, rfl⟩

/-- Claim C6: the truncated input of the spec fails strict parsing, the
repair pass appends the missing close bracket and close brace, the repaired
string parses, and extraction yields exactly one record. -/
theorem claim_C6_autoclose :
    jsonLoads c6text = none
    ∧ fix_json_string c6text = c6text ++ "]\x7d".toList
    ∧ parse_test_cases c6text
        = .ok [recLow] [Diag.foundJsonWithoutCodeBlock, Diag.initialParseError,
            Diag.fixedParse] :=
  ⟨rfl, rfl, rfl⟩

/-- Claim C7: every non-empty text in which no open brace is followed by a
close brace (so neither extraction regex can locate a span) yields the
empty list with the no-JSON-found diagnostic and no exit. -/
theorem claim_C7_no_json_found (text : List Char) (h1 : text.isEmpty = false)
    (h2 : hasBracePair text = false) :
    parse_test_cases text = .ok [] [Diag.noJsonFound] := by
  unfold parse_test_cases
  rw [h1]
  simp only [Bool.false_eq_true, if_false]
  rw [fenceSearch_none_of_noPair text h2, bareExtract_none_of_noPair text h2]

/-- Claim C7, witness: the theorem applied to the refusal text of the spec. -/
theorem claim_C7_witness :
    ("I cannot help with that.".toList.isEmpty = false)
    ∧ hasBracePair "I cannot help with that.".toList = false
    ∧ parse_test_cases "I cannot help with that.".toList = .ok [] [Diag.noJsonFound] :=
  ⟨rfl, rfl, claim_C7_no_json_found _ rfl rfl⟩

/-- Claim C10: the repair pass always appends the bracket deficit before the
brace deficit, both computed from raw character counts of the substituted
string; consequently the candidate truncated inside an inner object of an
array is repaired to a string that is still invalid, the decode stage falls
through to field salvage, and with only `title` present the result is the
empty list. -/
theorem claim_C10_bracket_order :
    (∀ js, fix_json_string js = braceBase js
        ++ List.replicate ((braceBase js).count '[' - (braceBase js).count ']') ']'
        ++ List.replicate ((braceBase js).count '{' - (braceBase js).count '}') '}')
    ∧ fix_json_string c10cand = c10cand ++ "]\x7d\x7d".toList
    ∧ jsonLoads c10cand = none
    ∧ jsonLoads (fix_json_string c10cand) = none
    ∧ salvageField titleKey c10cand = some "t".toList
    ∧ salvageField precondKey c10cand = none
    ∧ decodeCore c10cand = .ok []
        [Diag.initialParseError, Diag.fixedParseError, Diag.manualExtractionFailed] := by
  refine ⟨?_, rfl, rfl, rfl, rfl, rfl, rfl⟩
  intro js
  simp only [fix_json_string]
  by_cases h1 : (braceBase js).count '[' > (braceBase js).count ']'
  · rw [if_pos h1]
    have e1 : ((braceBase js) ++ List.replicate ((braceBase js).count '['
        - (braceBase js).count ']') ']').count '{' = (braceBase js).count '{' := by
      rw [List.count_append]
      simp [List.count_replicate]
    have e2 : ((braceBase js) ++ List.replicate ((braceBase js).count '['
        - (braceBase js).count ']') ']').count '}' = (braceBase js).count '}' := by
      rw [List.count_append]
      simp [List.count_replicate]
    rw [e1, e2]
    by_cases h2 : (braceBase js).count '{' > (braceBase js).count '}'
    · rw [if_pos h2]
    · rw [if_neg h2]
      have hz : (braceBase js).count '{' - (braceBase js).count '}' = 0 :=
        Nat.sub_eq_zero_of_le (Nat.le_of_not_lt h2)
      rw [hz]
      simp
  · rw [if_neg h1]
    have hz : (braceBase js).count '[' - (braceBase js).count ']' = 0 :=
      Nat.sub_eq_zero_of_le (Nat.le_of_not_lt h1)
    rw [hz]
    simp only [List.replicate_zero, List.append_nil]
    by_cases h2 : (braceBase js).count '{' > (braceBase js).count '}'
    · rw [if_pos h2]
    · rw [if_neg h2]
      have hz2 : (braceBase js).count '{' - (braceBase js).count '}' = 0 :=
        Nat.sub_eq_zero_of_le (Nat.le_of_not_lt h2)
      rw [hz2]
      simp
